import Mathlib

/-!
Verification of the text-diff engine of the `evolution_du_droit` repository.

The definitions below are shallow embeddings of the JavaScript source:
* `js/diff.js` — `computeLCSTable`, `backtrackDiff`, `computeDiff`,
  `renderSideBySideDiff`, `renderUnifiedDiff`, `renderMultiFileDiff`,
  `getDiffStats`;
* `js/app.js` — `renderBeforeAfterView` (its pure aggregation core).

DOM-producing functions are embedded as functions returning lists of plain
records carrying exactly the data the source writes into the DOM nodes.
-/

set_option maxRecDepth 4000

namespace EvolutionDuDroit

/-- Kind tag of a diff operation, as the string tags of `diff.js`
(`unchanged`, `add`, `del`). -/
inductive OpType where
  | unchanged
  | add
  | del
deriving DecidableEq

/-- One edit operation as built by `backtrackDiff` / `computeDiff`:
`{ type, content, oldLine?, newLine? }`.  A field the JS object omits
(hence `undefined`) is `none`. -/
structure DiffOp where
  type : OpType
  content : String
  oldLine : Option Nat
  newLine : Option Nat
deriving DecidableEq

/-- JS split on the newline character, on the character list: split at every
newline; no separators yields a single segment. -/
def splitNl : List Char → List String
  | [] => [""]
  | c :: cs =>
    if c = '\n' then "" :: splitNl cs
    else
      match splitNl cs with
      | [] => [String.mk [c]]
      | t :: ts => String.mk (c :: t.data) :: ts

/-- JS split on the newline character, for a `String`. -/
def jsSplitNewline (s : String) : List String :=
  splitNl s.data

/-- Line sequence of a text input, as computed at the top of `computeDiff`:
a truthy text is split on newlines; a falsy one — `null` (here `none`) or
the empty string — yields the empty sequence. -/
def toLines : Option String → List String
  | none => []
  | some s => if s = "" then [] else jsSplitNewline s

/-- The LCS score table of `computeLCSTable` in `diff.js`, as a function of
the two indices: row 0 and column 0 are 0 (the array is initialised with 0
and the loops start at 1), and entry `(i+1, j+1)` follows the source
recurrence on `table[i][j]`.  Element access mirrors
`oldLines[i-1] === newLines[j-1]` via optional indexing. -/
def computeLCSTable (oldLines newLines : List String) : Nat → Nat → Nat
  | 0, _ => 0
  | _ + 1, 0 => 0
  | i + 1, j + 1 =>
    if oldLines[i]? = newLines[j]? then
      computeLCSTable oldLines newLines i j + 1
    else
      max (computeLCSTable oldLines newLines i (j + 1))
          (computeLCSTable oldLines newLines (i + 1) j)
termination_by i j => (i, j)

/-- The backtracking loop of `backtrackDiff` in `diff.js`.  The JS loop
`unshift`s the op for the current `(i, j)` and then decrements, so the op for
the starting position ends up last: the recursion appends the current op
after the ops of the smaller position.  The final `else` branch is
unreachable (when neither op branch fires, `i = 0` and `j = 0`, so the loop
guard `i > 0 || j > 0` has already failed). -/
def backtrackDiff (table : Nat → Nat → Nat) (oldLines newLines : List String)
    (i j : Nat) : List DiffOp :=
  if h0 : i = 0 ∧ j = 0 then []
  else if heq : 0 < i ∧ 0 < j ∧ oldLines[i - 1]? = newLines[j - 1]? then
    backtrackDiff table oldLines newLines (i - 1) (j - 1) ++
      [⟨.unchanged, oldLines.getD (i - 1) "", some i, some j⟩]
  else if hins : 0 < j ∧ (i = 0 ∨ table (i - 1) j ≤ table i (j - 1)) then
    backtrackDiff table oldLines newLines i (j - 1) ++
      [⟨.add, newLines.getD (j - 1) "", none, some j⟩]
  else if hdel : 0 < i then
    backtrackDiff table oldLines newLines (i - 1) j ++
      [⟨.del, oldLines.getD (i - 1) "", some i, none⟩]
  else []
termination_by i + j
decreasing_by
  · omega
  · omega
  · omega

/-- Body of `computeDiff` after line splitting: the three degenerate
branches, then LCS table plus backtracking. -/
def computeDiffLines (oldLines newLines : List String) : List DiffOp :=
  if oldLines.length = 0 ∧ newLines.length = 0 then []
  else if oldLines.length = 0 then
    newLines.enum.map fun p => ⟨.add, p.2, none, some (p.1 + 1)⟩
  else if newLines.length = 0 then
    oldLines.enum.map fun p => ⟨.del, p.2, some (p.1 + 1), none⟩
  else
    backtrackDiff (computeLCSTable oldLines newLines) oldLines newLines
      oldLines.length newLines.length

/-- The `computeDiff` entry point of `diff.js`: split both texts into lines
(`null`/empty-falsy handling included) and run the line diff. -/
def computeDiff (oldContent newContent : Option String) : List DiffOp :=
  computeDiffLines (toLines oldContent) (toLines newContent)

/-- Number of ops of a given kind in a script. -/
def countType (t : OpType) (l : List DiffOp) : Nat :=
  l.countP fun op => decide (op.type = t)

/-- Membership of an op in the new-side filter class `{equal, insert}`. -/
def keepNewSide (op : DiffOp) : Bool :=
  decide (op.type = OpType.unchanged ∨ op.type = OpType.add)

/-- Membership of an op in the old-side filter class `{equal, delete}`. -/
def keepOldSide (op : DiffOp) : Bool :=
  decide (op.type = OpType.unchanged ∨ op.type = OpType.del)

/-- Length of the longest common subsequence of two lists, by the textbook
head recursion.  This is the mathematical yardstick for C2; the theorems
`lcsLen_exists` and `lcsLen_le` certify that it really is the greatest
length of a common sublist. -/
def lcsLen : List String → List String → Nat
  | [], _ => 0
  | _ :: _, [] => 0
  | a :: as, b :: bs =>
    if a = b then lcsLen as bs + 1
    else max (lcsLen (a :: as) bs) (lcsLen as (b :: bs))
termination_by l1 l2 => l1.length + l2.length
decreasing_by
  all_goals simp only [List.length_cons]
  all_goals omega

/-- Kind tag of a rendered pane line in `renderSideBySideDiff`
(`unchanged`, `add`, `del`, `empty`). -/
inductive PaneType where
  | unchanged
  | add
  | del
  | empty
deriving DecidableEq

/-- One pane line as pushed by `renderSideBySideDiff`: `{ type, content,
lineNum }`.  The empty-string line number of an `empty` placeholder is `none`. -/
structure PaneLine where
  type : PaneType
  content : String
  lineNum : Option Nat
deriving DecidableEq

/-- The `renderSideBySideDiff` function of `diff.js`: one pass over the script pushing
one line per op onto each of the two panes. -/
def renderSideBySideDiff (diff : List DiffOp) : List PaneLine × List PaneLine :=
  diff.foldl
    (fun acc item =>
      match item.type with
      | .unchanged =>
        (acc.1 ++ [⟨.unchanged, item.content, item.oldLine⟩],
          acc.2 ++ [⟨.unchanged, item.content, item.newLine⟩])
      | .del =>
        (acc.1 ++ [⟨.del, item.content, item.oldLine⟩],
          acc.2 ++ [⟨.empty, "", none⟩])
      | .add =>
        (acc.1 ++ [⟨.empty, "", none⟩],
          acc.2 ++ [⟨.add, item.content, item.newLine⟩]))
    ([], [])

/-- Left cell an op should produce, restating the data-model rule of §3 of
the spec: `equal`/`delete` populate the left cell, `insert` leaves it
empty.  Used only to compare `renderSideBySideDiff` against the spec. -/
def leftCellOfOp (op : DiffOp) : PaneLine :=
  match op.type with
  | .unchanged => ⟨.unchanged, op.content, op.oldLine⟩
  | .del => ⟨.del, op.content, op.oldLine⟩
  | .add => ⟨.empty, "", none⟩

/-- Right cell an op should produce per §3: `equal`/`insert` populate the
right cell, `delete` leaves it empty. -/
def rightCellOfOp (op : DiffOp) : PaneLine :=
  match op.type with
  | .unchanged => ⟨.unchanged, op.content, op.newLine⟩
  | .del => ⟨.empty, "", none⟩
  | .add => ⟨.add, op.content, op.newLine⟩

/-- JS `x || fallback` for a line-number field (a number or `undefined`):
`0` and `undefined` are falsy, any other number renders as its digits. -/
def jsNumOr (a : Option Nat) (fallback : String) : String :=
  match a with
  | some k => if k = 0 then fallback else toString k
  | none => fallback

/-- One rendered line of `renderUnifiedDiff`: the marker, the displayed
line-number text and the content written into the three spans. -/
structure UnifiedLine where
  marker : String
  lineNum : String
  content : String
deriving DecidableEq

/-- The `renderUnifiedDiff` function of `diff.js`: each op becomes one line; `add` shows
`+` and the new line number, `del` shows `-` and the old one, the default
branch shows a blank marker and `item.oldLine || item.newLine || ''`. -/
def renderUnifiedDiff (diff : List DiffOp) : List UnifiedLine :=
  diff.map fun item =>
    match item.type with
    | .add => ⟨"+", jsNumOr item.newLine "", item.content⟩
    | .del => ⟨"-", jsNumOr item.oldLine "", item.content⟩
    | .unchanged =>
      ⟨" ", jsNumOr item.oldLine (jsNumOr item.newLine ""), item.content⟩

/-- One input entry of `renderMultiFileDiff`, as produced by the API
layer: a filename, a free-form status string, the API-supplied addition and
deletion counts, and the two file contents (`null` when missing). -/
structure FileEntry where
  filename : String
  status : String
  additions : Nat
  deletions : Nat
  previousContent : Option String
  currentContent : Option String
deriving DecidableEq

/-- The status icon of the file header:
`added` maps to a plus sign, `deleted` to a minus sign, anything else to a tilde. -/
def statusIcon (status : String) : String :=
  if status = "added" then "+" else if status = "deleted" then "-" else "~"

/-- JS `text || ''`: `null` and the empty string both collapse to `""`. -/
def jsOrEmptyText (o : Option String) : Option String :=
  some (match o with | none => "" | some s => s)

/-- Abstract render output of `renderMultiFileDiff`: the file-header node
(with the data interpolated into its HTML) or one unified diff line. -/
inductive RenderNode where
  | header (icon filename : String) (additions deletions : Nat)
  | line (l : UnifiedLine)
deriving DecidableEq

/-- The `renderMultiFileDiff` function of `diff.js`: for each file, append a header
showing the status icon, filename and the entry's own `additions` /
`deletions` fields, then the unified rendering of
`computeDiff(file.previousContent || '', file.currentContent || '')`. -/
def renderMultiFileDiff (fileDiffs : List FileEntry) : List RenderNode :=
  fileDiffs.foldl
    (fun acc file =>
      acc ++
        [RenderNode.header (statusIcon file.status) file.filename
          file.additions file.deletions] ++
        (renderUnifiedDiff (computeDiff (jsOrEmptyText file.previousContent)
          (jsOrEmptyText file.currentContent))).map RenderNode.line)
    []

/-- The three counters of `getDiffStats`. -/
structure DiffStats where
  additions : Nat
  deletions : Nat
  unchanged : Nat
deriving DecidableEq

/-- The `getDiffStats` function of `diff.js`: one pass over the script bumping the
counter matching each op's kind (the `default` branch counts
`unchanged`). -/
def getDiffStats (diff : List DiffOp) : DiffStats :=
  diff.foldl
    (fun s item =>
      match item.type with
      | .add => { s with additions := s.additions + 1 }
      | .del => { s with deletions := s.deletions + 1 }
      | .unchanged => { s with unchanged := s.unchanged + 1 })
    ⟨0, 0, 0⟩

/-- One pre-computed diff line of a commit-detail payload, as used by
`renderBeforeAfterView` in `app.js` (only `type` and `content` are read). -/
structure AppLine where
  type : String
  content : String
deriving DecidableEq

/-- One changed file of a commit detail: its name and its pre-computed
diff lines. -/
structure CommitFile where
  filename : String
  diff : List AppLine
deriving DecidableEq

/-- One commit of the before/after view, carrying its already-retrieved
detail (the engine side of §5 operates on settled values, so the
asynchronous `fetchCommitDetail` is inlined as the commit's data; the
catch-and-skip path for failed fetches is not modelled). -/
structure CommitDetail where
  files : List CommitFile
deriving DecidableEq

/-- The pure row-building core of `renderBeforeAfterView` in `app.js`: over
`commits.slice(0, 10)`, for each file push a `=== filename ===` banner on
both panes, then pair each line — `del` lines sit left with an empty right
cell, `add` lines sit right with an empty left cell, anything else sits on
both sides. -/
def renderBeforeAfterView (commits : List CommitDetail) :
    List AppLine × List AppLine :=
  (commits.take 10).foldl
    (fun acc detail =>
      detail.files.foldl
        (fun acc2 file =>
          file.diff.foldl
            (fun acc3 line =>
              if line.type = "del" then
                (acc3.1 ++ [line], acc3.2 ++ [⟨"empty", ""⟩])
              else if line.type = "add" then
                (acc3.1 ++ [⟨"empty", ""⟩], acc3.2 ++ [line])
              else (acc3.1 ++ [line], acc3.2 ++ [line]))
            (acc2.1 ++ [⟨"unchanged", "=== " ++ file.filename ++ " ==="⟩],
              acc2.2 ++ [⟨"unchanged", "=== " ++ file.filename ++ " ==="⟩]))
        acc)
    ([], [])

/-- Left-pane row of one pre-computed line per the §3-style pairing rule
(`add` leaves the left cell empty).  Spec-side helper for comparing
`renderBeforeAfterView` with its row-per-line description. -/
def leftRowOfLine (line : AppLine) : AppLine :=
  if line.type = "add" then ⟨"empty", ""⟩ else line

/-- Right-pane row of one pre-computed line (`del` leaves the right cell
empty). -/
def rightRowOfLine (line : AppLine) : AppLine :=
  if line.type = "del" then ⟨"empty", ""⟩ else line

/-- Left-pane rows of one file: its banner then its paired lines. -/
def fileRowsL (file : CommitFile) : List AppLine :=
  ⟨"unchanged", "=== " ++ file.filename ++ " ==="⟩ ::
    file.diff.map leftRowOfLine

/-- Right-pane rows of one file. -/
def fileRowsR (file : CommitFile) : List AppLine :=
  ⟨"unchanged", "=== " ++ file.filename ++ " ==="⟩ ::
    file.diff.map rightRowOfLine

section BacktrackUnfold

variable (table : Nat → Nat → Nat) (oldLines newLines : List String)

theorem backtrackDiff_zero : backtrackDiff table oldLines newLines 0 0 = [] := by
  rw [backtrackDiff]
  simp

theorem backtrackDiff_unchanged {i j : Nat} (h1 : 0 < i) (h2 : 0 < j)
    (h3 : oldLines[i - 1]? = newLines[j - 1]?) :
    backtrackDiff table oldLines newLines i j =
      backtrackDiff table oldLines newLines (i - 1) (j - 1) ++
        [⟨.unchanged, oldLines.getD (i - 1) "", some i, some j⟩] := by
  rw [backtrackDiff, dif_neg (by omega), dif_pos ⟨h1, h2, h3⟩]

theorem backtrackDiff_insert {i j : Nat}
    (hne : ¬(0 < i ∧ 0 < j ∧ oldLines[i - 1]? = newLines[j - 1]?))
    (hj : 0 < j) (hcond : i = 0 ∨ table (i - 1) j ≤ table i (j - 1)) :
    backtrackDiff table oldLines newLines i j =
      backtrackDiff table oldLines newLines i (j - 1) ++
        [⟨.add, newLines.getD (j - 1) "", none, some j⟩] := by
  rw [backtrackDiff, dif_neg (by omega), dif_neg hne, dif_pos ⟨hj, hcond⟩]

theorem backtrackDiff_delete {i j : Nat}
    (hne : ¬(0 < i ∧ 0 < j ∧ oldLines[i - 1]? = newLines[j - 1]?))
    (hnotins : ¬(0 < j ∧ (i = 0 ∨ table (i - 1) j ≤ table i (j - 1))))
    (hi : 0 < i) :
    backtrackDiff table oldLines newLines i j =
      backtrackDiff table oldLines newLines (i - 1) j ++
        [⟨.del, oldLines.getD (i - 1) "", some i, none⟩] := by
  rw [backtrackDiff, dif_neg (by omega), dif_neg hne, dif_neg hnotins,
    dif_pos hi]

/-- Whenever the loop guard holds and neither the `unchanged` nor the
`insert` branch fires, the `delete` branch does: the trailing `else` of the
embedding (an infinite loop in the JS source) is unreachable. -/
theorem backtrackDiff_branch_total {i j : Nat} (hg : ¬(i = 0 ∧ j = 0))
    (hnotins : ¬(0 < j ∧ (i = 0 ∨ table (i - 1) j ≤ table i (j - 1)))) :
    0 < i := by
  rcases Nat.eq_zero_or_pos i with hi | hi
  · exact absurd ⟨by omega, Or.inl hi⟩ hnotins
  · exact hi

end BacktrackUnfold

/-- Every op in a script is of exactly one of the three kinds, so the
script length is the sum of the three per-kind counts. -/
theorem length_eq_countTypes (l : List DiffOp) :
    l.length = countType .unchanged l + countType .add l + countType .del l := by
  induction l with
  | nil => simp [countType]
  | cons op t ih =>
    rcases hop : op.type <;>
      simp [countType, List.countP_cons, hop] at ih ⊢ <;> omega

/-- Counting invariant of the backtracking loop: starting from position
`(i, j)`, the generated ops consume exactly `i` old lines (as `unchanged` or
`del`) and exactly `j` new lines (as `unchanged` or `add`), whatever the
score table. -/
theorem backtrackDiff_counts (table : Nat → Nat → Nat)
    (oldLines newLines : List String) :
    ∀ i j,
      countType .unchanged (backtrackDiff table oldLines newLines i j) +
          countType .del (backtrackDiff table oldLines newLines i j) = i ∧
      countType .unchanged (backtrackDiff table oldLines newLines i j) +
          countType .add (backtrackDiff table oldLines newLines i j) = j := by
  have H : ∀ n i j, i + j ≤ n →
      countType .unchanged (backtrackDiff table oldLines newLines i j) +
          countType .del (backtrackDiff table oldLines newLines i j) = i ∧
      countType .unchanged (backtrackDiff table oldLines newLines i j) +
          countType .add (backtrackDiff table oldLines newLines i j) = j := by
    intro n
    induction n with
    | zero =>
      intro i j h
      have hi : i = 0 := by omega
      have hj : j = 0 := by omega
      subst hi; subst hj
      simp [backtrackDiff_zero, countType]
    | succ n ih =>
      intro i j h
      by_cases h0 : i = 0 ∧ j = 0
      · obtain ⟨rfl, rfl⟩ := h0
        simp [backtrackDiff_zero, countType]
      · by_cases heq : 0 < i ∧ 0 < j ∧ oldLines[i - 1]? = newLines[j - 1]?
        · obtain ⟨h1, h2, h3⟩ := heq
          rw [backtrackDiff_unchanged table oldLines newLines h1 h2 h3]
          have := ih (i - 1) (j - 1) (by omega)
          simp only [countType, List.countP_append] at this ⊢
          simp [List.countP_cons]
          omega
        · by_cases hins :
              0 < j ∧ (i = 0 ∨ table (i - 1) j ≤ table i (j - 1))
          · rw [backtrackDiff_insert table oldLines newLines heq hins.1 hins.2]
            have := ih i (j - 1) (by omega)
            simp only [countType, List.countP_append] at this ⊢
            simp [List.countP_cons]
            omega
          · have hi : 0 < i :=
              backtrackDiff_branch_total table h0 hins
            rw [backtrackDiff_delete table oldLines newLines heq hins hi]
            have := ih (i - 1) j (by omega)
            simp only [countType, List.countP_append] at this ⊢
            simp [List.countP_cons]
            omega
  intro i j
  exact H (i + j) i j le_rfl

/-- C4: EditScript counting invariant.  For every pair of input texts, the
script of `computeDiff` satisfies `#unchanged + #del = `old line count,
`#unchanged + #add = `new line count, and its length is the sum of the three
per-kind counts. -/
theorem computeDiff_counting_invariant (o n : Option String) :
    countType .unchanged (computeDiff o n) + countType .del (computeDiff o n) =
        (toLines o).length ∧
    countType .unchanged (computeDiff o n) + countType .add (computeDiff o n) =
        (toLines n).length ∧
    (computeDiff o n).length =
      countType .unchanged (computeDiff o n) + countType .add (computeDiff o n) +
        countType .del (computeDiff o n) := by
  refine ⟨?_, ?_, length_eq_countTypes _⟩ <;>
  · unfold computeDiff computeDiffLines
    by_cases h0 : (toLines o).length = 0 ∧ (toLines n).length = 0
    · simp [h0.1, h0.2, countType]
    · rw [if_neg h0]
      by_cases hA : (toLines o).length = 0
      · simp [hA, countType, List.countP_map, Function.comp_def] at h0 ⊢
      · rw [if_neg hA]
        by_cases hB : (toLines n).length = 0
        · simp [hB, countType, List.countP_map, Function.comp_def]
        · rw [if_neg hB]
          have := backtrackDiff_counts
            (computeLCSTable (toLines o) (toLines n)) (toLines o) (toLines n)
            (toLines o).length (toLines n).length
          omega

/-- Reconstruction invariant of the backtracking loop: whatever the score
table, the ops generated from position `(i, j)` carry, on the new side
(`unchanged`/`add` ops), exactly the first `j` new lines in order, and on
the old side (`unchanged`/`del` ops), exactly the first `i` old lines. -/
theorem backtrackDiff_reconstruct (table : Nat → Nat → Nat)
    (oldLines newLines : List String) :
    ∀ i j, i ≤ oldLines.length → j ≤ newLines.length →
      ((backtrackDiff table oldLines newLines i j).filter keepNewSide).map
          DiffOp.content = newLines.take j ∧
      ((backtrackDiff table oldLines newLines i j).filter keepOldSide).map
          DiffOp.content = oldLines.take i := by
  have H : ∀ nn i j, i + j ≤ nn → i ≤ oldLines.length → j ≤ newLines.length →
      ((backtrackDiff table oldLines newLines i j).filter keepNewSide).map
          DiffOp.content = newLines.take j ∧
      ((backtrackDiff table oldLines newLines i j).filter keepOldSide).map
          DiffOp.content = oldLines.take i := by
    intro nn
    induction nn with
    | zero =>
      intro i j h hi hj
      have : i = 0 := by omega
      subst this
      have : j = 0 := by omega
      subst this
      simp [backtrackDiff_zero]
    | succ nn ih =>
      intro i j h hi hj
      by_cases h0 : i = 0 ∧ j = 0
      · obtain ⟨rfl, rfl⟩ := h0
        simp [backtrackDiff_zero]
      · by_cases heq : 0 < i ∧ 0 < j ∧ oldLines[i - 1]? = newLines[j - 1]?
        · obtain ⟨h1, h2, h3⟩ := heq
          obtain ⟨i', rfl⟩ : ∃ k, i = k + 1 := ⟨i - 1, by omega⟩
          obtain ⟨j', rfl⟩ : ∃ k, j = k + 1 := ⟨j - 1, by omega⟩
          rw [backtrackDiff_unchanged table oldLines newLines h1 h2 h3]
          simp only [Nat.add_sub_cancel] at h3 ⊢
          obtain ⟨ihn, iho⟩ := ih i' j' (by omega) (by omega) (by omega)
          have hi' : i' < oldLines.length := by omega
          have hj' : j' < newLines.length := by omega
          have hval : oldLines[i'] = newLines[j'] := by
            rw [List.getElem?_eq_getElem hi', List.getElem?_eq_getElem hj']
              at h3
            exact Option.some_injective _ h3
          constructor
          · rw [List.filter_append, List.map_append, ihn, List.take_succ]
            simp [keepNewSide, List.getElem?_eq_getElem hi',
              List.getElem?_eq_getElem hj', hval]
          · rw [List.filter_append, List.map_append, iho, List.take_succ]
            simp [keepOldSide, List.getElem?_eq_getElem hi']
        · by_cases hins :
              0 < j ∧ (i = 0 ∨ table (i - 1) j ≤ table i (j - 1))
          · obtain ⟨j', rfl⟩ : ∃ k, j = k + 1 := ⟨j - 1, by omega⟩
            rw [backtrackDiff_insert table oldLines newLines heq hins.1 hins.2]
            simp only [Nat.add_sub_cancel]
            obtain ⟨ihn, iho⟩ := ih i j' (by omega) (by omega) (by omega)
            have hj' : j' < newLines.length := by omega
            constructor
            · rw [List.filter_append, List.map_append, ihn, List.take_succ]
              simp [keepNewSide, List.getElem?_eq_getElem hj']
            · rw [List.filter_append, List.map_append, iho]
              simp [keepOldSide]
          · have h1 : 0 < i := backtrackDiff_branch_total table h0 hins
            obtain ⟨i', rfl⟩ : ∃ k, i = k + 1 := ⟨i - 1, by omega⟩
            rw [backtrackDiff_delete table oldLines newLines heq hins h1]
            simp only [Nat.add_sub_cancel]
            obtain ⟨ihn, iho⟩ := ih i' j (by omega) (by omega) (by omega)
            have hi' : i' < oldLines.length := by omega
            constructor
            · rw [List.filter_append, List.map_append, ihn]
              simp [keepNewSide]
            · rw [List.filter_append, List.map_append, iho, List.take_succ]
              simp [keepOldSide, List.getElem?_eq_getElem hi']
  intro i j
  exact H (i + j) i j le_rfl

/-- C1: round-trip law.  Filtering the script of `computeDiff` to
`{equal, insert}` ops and taking their contents in order yields exactly the
new line sequence; filtering to `{equal, delete}` yields exactly the old
line sequence. -/
theorem computeDiff_round_trip (o n : Option String) :
    ((computeDiff o n).filter keepNewSide).map DiffOp.content = toLines n ∧
    ((computeDiff o n).filter keepOldSide).map DiffOp.content = toLines o := by
  unfold computeDiff computeDiffLines
  by_cases h0 : (toLines o).length = 0 ∧ (toLines n).length = 0
  · obtain ⟨hA, hB⟩ := h0
    rw [List.length_eq_zero] at hA hB
    simp [hA, hB]
  · rw [if_neg h0]
    by_cases hA : (toLines o).length = 0
    · rw [if_pos hA]
      rw [List.length_eq_zero] at hA
      constructor
      · rw [show (fun p : Nat × String =>
            DiffOp.mk .add p.2 none (some (p.1 + 1))) =
            (fun p : Nat × String =>
              DiffOp.mk .add p.2 none (some (p.1 + 1))) from rfl]
        rw [List.filter_map, List.map_map]
        have : (List.filter (keepNewSide ∘ fun p : Nat × String =>
            DiffOp.mk .add p.2 none (some (p.1 + 1))) (toLines n).enum) =
            (toLines n).enum := by
          apply List.filter_eq_self.2
          intro a _
          simp [keepNewSide, Function.comp]
        rw [this]
        simp [Function.comp_def, List.enum_map_snd]
      · rw [hA]
        apply List.eq_nil_of_length_eq_zero
        simp only [List.length_map]
        rw [List.length_eq_zero, List.filter_eq_nil_iff]
        intro a ha
        obtain ⟨p, _, rfl⟩ := List.mem_map.1 ha
        simp [keepOldSide]
    · rw [if_neg hA]
      by_cases hB : (toLines n).length = 0
      · rw [if_pos hB]
        rw [List.length_eq_zero] at hB
        constructor
        · rw [hB]
          apply List.eq_nil_of_length_eq_zero
          simp only [List.length_map]
          rw [List.length_eq_zero, List.filter_eq_nil_iff]
          intro a ha
          obtain ⟨p, _, rfl⟩ := List.mem_map.1 ha
          simp [keepNewSide]
        · rw [List.filter_map, List.map_map]
          have : (List.filter (keepOldSide ∘ fun p : Nat × String =>
              DiffOp.mk .del p.2 (some (p.1 + 1)) none) (toLines o).enum) =
              (toLines o).enum := by
            apply List.filter_eq_self.2
            intro a _
            simp [keepOldSide, Function.comp]
          rw [this]
          simp [Function.comp_def, List.enum_map_snd]
      · rw [if_neg hB]
        have := backtrackDiff_reconstruct
          (computeLCSTable (toLines o) (toLines n)) (toLines o) (toLines n)
          (toLines o).length (toLines n).length le_rfl le_rfl
        simpa using this

/-- Reading a list back off by indexing over `range` of its length. -/
theorem map_range_getD {α : Type} (l : List α) (d : α) :
    (List.range l.length).map (fun i => l.getD i d) = l := by
  induction l with
  | nil => simp
  | cons x xs ih =>
    simp only [List.length_cons, List.range_succ_eq_map, List.map_cons,
      List.map_map]
    simp only [Function.comp_def, List.getD_cons_zero, List.getD_cons_succ]
    rw [ih]

/-- On two identical line sequences the backtracking loop always takes the
`unchanged` branch: from position `(k, k)` it yields one `unchanged` op per
position, in order, with matching line numbers. -/
theorem backtrackDiff_self (table : Nat → Nat → Nat) (L : List String) :
    ∀ k, backtrackDiff table L L k k =
      (List.range k).map
        (fun idx => ⟨.unchanged, L.getD idx "", some (idx + 1), some (idx + 1)⟩) := by
  intro k
  induction k with
  | zero => simp [backtrackDiff_zero]
  | succ k ih =>
    rw [backtrackDiff_unchanged table L L (by omega) (by omega) rfl]
    simp only [Nat.add_sub_cancel]
    rw [ih, List.range_succ]
    simp

/-- C6: self-diff identity.  Diffing a line sequence against itself yields
exactly one `unchanged` op per line, in order, each carrying the line's
content and matching 1-based old/new line numbers. -/
theorem computeDiff_self_identity (L : List String) :
    computeDiffLines L L =
      (List.range L.length).map
        (fun idx => ⟨.unchanged, L.getD idx "", some (idx + 1), some (idx + 1)⟩) ∧
    (computeDiffLines L L).map DiffOp.content = L := by
  have h1 : computeDiffLines L L =
      (List.range L.length).map
        (fun idx =>
          ⟨.unchanged, L.getD idx "", some (idx + 1), some (idx + 1)⟩) := by
    unfold computeDiffLines
    by_cases hL : L.length = 0
    · simp [hL]
    · rw [if_neg (fun h => hL h.1), if_neg hL, if_neg hL]
      exact backtrackDiff_self _ L L.length
  refine ⟨h1, ?_⟩
  rw [h1, List.map_map]
  simpa [Function.comp_def] using map_range_getD L ""

/-- C5: degenerate cases.  Both inputs empty gives the empty script; an
empty old side gives an all-`add` script carrying the new lines in order
with `newLine` numbers `1..n`; an empty new side gives an all-`del` script
carrying the old lines with `oldLine` numbers `1..m`. -/
theorem computeDiff_degenerate (o n : Option String) :
    (toLines o = [] → toLines n = [] → computeDiff o n = []) ∧
    (toLines o = [] → computeDiff o n =
      (toLines n).enum.map fun p => ⟨.add, p.2, none, some (p.1 + 1)⟩) ∧
    (toLines n = [] → computeDiff o n =
      (toLines o).enum.map fun p => ⟨.del, p.2, some (p.1 + 1), none⟩) := by
  unfold computeDiff computeDiffLines
  refine ⟨?_, ?_, ?_⟩
  · intro hA hB
    simp [hA, hB]
  · intro hA
    by_cases hB : toLines n = []
    · simp [hA, hB]
    · simp [hA, hB, List.length_eq_zero]
  · intro hB
    by_cases hA : toLines o = []
    · simp [hA, hB]
    · simp [hA, hB, List.length_eq_zero]

/-- Witness for C5 at the spec's own example: `diff(null, "a\nb")` yields
two `add` ops, contents `"a"` then `"b"`, `newLine` 1 and 2. -/
theorem computeDiff_degenerate_witness :
    computeDiff none (some "a\nb") =
      [⟨.add, "a", none, some 1⟩, ⟨.add, "b", none, some 2⟩] := by
  rw [(computeDiff_degenerate none (some "a\nb")).2.1 rfl]
  decide

/-- C10: line-splitting edge case.  `computeDiff` treats `""` exactly like
`null` on either side; a non-empty text keeps every newline-separated
segment, so `"a\n"` has a trailing empty line and `diff("a", "a\n")` is an
`unchanged` op for `"a"` followed by an `add` op with empty content — not an
all-`unchanged` script. -/
theorem computeDiff_empty_string_and_trailing_newline :
    (∀ t, computeDiff (some "") t = computeDiff none t ∧
      computeDiff t (some "") = computeDiff t none) ∧
    computeDiff (some "a") (some "a\n") =
      [⟨.unchanged, "a", some 1, some 1⟩, ⟨.add, "", none, some 2⟩] ∧
    ∃ op ∈ computeDiff (some "a") (some "a\n"), op.type ≠ OpType.unchanged := by
  have h2 : computeDiff (some "a") (some "a\n") =
      [⟨.unchanged, "a", some 1, some 1⟩, ⟨.add, "", none, some 2⟩] := by
    simp [computeDiff, computeDiffLines, toLines, jsSplitNewline, splitNl,
      computeLCSTable, backtrackDiff]
  refine ⟨?_, h2, ?_⟩
  · intro t
    constructor <;> simp [computeDiff, toLines]
  · rw [h2]
    decide

/-- C3: backtracking tie-break.  At any backtrack position `(i, j)` still
inside the loop whose current lines do not match, the op emitted by
`backtrackDiff` (run on the LCS table, as `computeDiff` does) is an `add`
exactly when `j > 0` and (`i = 0` or `table[i][j-1] >= table[i-1][j]`), and
a `del` otherwise; in particular equal scores fall to the `add` side. -/
theorem backtrackDiff_tie_break (oldLines newLines : List String)
    (_hold : oldLines ≠ []) (_hnew : newLines ≠ []) (i j : Nat)
    (_hi : i ≤ oldLines.length) (_hj : j ≤ newLines.length)
    (hguard : 0 < i ∨ 0 < j)
    (hne : ¬(0 < i ∧ 0 < j ∧ oldLines[i - 1]? = newLines[j - 1]?)) :
    (0 < j ∧ (i = 0 ∨ computeLCSTable oldLines newLines (i - 1) j ≤
        computeLCSTable oldLines newLines i (j - 1)) →
      backtrackDiff (computeLCSTable oldLines newLines) oldLines newLines i j =
        backtrackDiff (computeLCSTable oldLines newLines) oldLines newLines
            i (j - 1) ++
          [⟨.add, newLines.getD (j - 1) "", none, some j⟩]) ∧
    (¬(0 < j ∧ (i = 0 ∨ computeLCSTable oldLines newLines (i - 1) j ≤
        computeLCSTable oldLines newLines i (j - 1))) →
      backtrackDiff (computeLCSTable oldLines newLines) oldLines newLines i j =
        backtrackDiff (computeLCSTable oldLines newLines) oldLines newLines
            (i - 1) j ++
          [⟨.del, oldLines.getD (i - 1) "", some i, none⟩]) := by
  constructor
  · intro hins
    exact backtrackDiff_insert _ _ _ hne hins.1 hins.2
  · intro hnotins
    exact backtrackDiff_delete _ _ _ hne hnotins
      (backtrackDiff_branch_total _ (by omega) hnotins)

/-- Witness for C3: a differing position takes the `add` branch on equal
scores, and on the spec's swapped-lines example `diff("x\ny", "y\nx")` the
engine deterministically produces `del "x"`, `equal "y"`, `add "x"`. -/
theorem backtrackDiff_tie_break_witness :
    (backtrackDiff (computeLCSTable ["x"] ["y"]) ["x"] ["y"] 1 1 =
      backtrackDiff (computeLCSTable ["x"] ["y"]) ["x"] ["y"] 1 0 ++
        [⟨.add, "y", none, some 1⟩]) ∧
    computeDiff (some "x\ny") (some "y\nx") =
      [⟨.del, "x", some 1, none⟩, ⟨.unchanged, "y", some 2, some 1⟩,
        ⟨.add, "x", none, some 2⟩] := by
  constructor
  · have h01 : computeLCSTable ["x"] ["y"] 0 1 = 0 := by
      simp [computeLCSTable]
    have h10 : computeLCSTable ["x"] ["y"] 1 0 = 0 := by
      simp [computeLCSTable]
    exact (backtrackDiff_tie_break ["x"] ["y"] (by decide) (by decide) 1 1
      (by decide) (by decide) (by decide) (by decide)).1
      ⟨by decide, Or.inr (by rw [h01, h10])⟩
  · simp [computeDiff, computeDiffLines, toLines, jsSplitNewline, splitNl,
      computeLCSTable, backtrackDiff]

theorem lcsLen_nil_right (l : List String) : lcsLen l [] = 0 := by
  cases l <;> simp [lcsLen]

/-- Some common sublist attains the `lcsLen` bound. -/
theorem lcsLen_exists (l1 l2 : List String) :
    ∃ zs : List String,
      zs.Sublist l1 ∧ zs.Sublist l2 ∧ zs.length = lcsLen l1 l2 := by
  have H : ∀ (nn : Nat) (l1 l2 : List String), l1.length + l2.length ≤ nn →
      ∃ zs : List String,
        zs.Sublist l1 ∧ zs.Sublist l2 ∧ zs.length = lcsLen l1 l2 := by
    intro nn
    induction nn with
    | zero =>
      intro l1 l2 h
      have h1 : l1 = [] := List.length_eq_zero.1 (by omega)
      subst h1
      exact ⟨[], by simp, by simp, by simp [lcsLen]⟩
    | succ nn ih =>
      intro l1 l2 h
      match l1, l2 with
      | [], l2 => exact ⟨[], by simp, by simp, by simp [lcsLen]⟩
      | a :: as, [] => exact ⟨[], by simp, by simp, by simp [lcsLen]⟩
      | a :: as, b :: bs =>
        by_cases hab : a = b
        · subst hab
          obtain ⟨zs, s1, s2, hl⟩ := ih as bs (by simp at h; omega)
          refine ⟨a :: zs, s1.cons₂ a, s2.cons₂ a, ?_⟩
          simp [lcsLen, hl]
        · rcases Nat.le_total (lcsLen (a :: as) bs) (lcsLen as (b :: bs)) with
            hle | hle
          · obtain ⟨zs, s1, s2, hl⟩ := ih as (b :: bs) (by simp at h ⊢; omega)
            refine ⟨zs, s1.cons a, s2, ?_⟩
            rw [hl]
            simp [lcsLen, hab]
            omega
          · obtain ⟨zs, s1, s2, hl⟩ := ih (a :: as) bs (by simp at h ⊢; omega)
            refine ⟨zs, s1, s2.cons b, ?_⟩
            rw [hl]
            simp [lcsLen, hab]
            omega
  exact H (l1.length + l2.length) l1 l2 le_rfl

/-- No common sublist is longer than `lcsLen`. -/
theorem lcsLen_le (l1 l2 zs : List String) (h1 : zs.Sublist l1)
    (h2 : zs.Sublist l2) : zs.length ≤ lcsLen l1 l2 := by
  have H : ∀ nn (l1 l2 zs : List String), l1.length + l2.length ≤ nn →
      zs.Sublist l1 → zs.Sublist l2 → zs.length ≤ lcsLen l1 l2 := by
    intro nn
    induction nn with
    | zero =>
      intro l1 l2 zs h h1 h2
      have : l1 = [] := List.length_eq_zero.1 (by omega)
      subst this
      simp [List.sublist_nil.1 h1, lcsLen]
    | succ nn ih =>
      intro l1 l2 zs h h1 h2
      match l1, l2 with
      | [], l2 =>
        simp [List.sublist_nil.1 h1, lcsLen]
      | a :: as, [] =>
        simp [List.sublist_nil.1 h2, lcsLen_nil_right]
      | a :: as, b :: bs =>
        match zs with
        | [] => simp
        | c :: cs =>
          by_cases hab : a = b
          · subst hab
            have hcs : cs.length ≤ lcsLen as bs := by
              apply ih as bs cs (by simp at h; omega)
              · cases h1 with
                | cons _ hs => exact List.sublist_of_cons_sublist hs
                | cons₂ _ hs => exact hs
              · cases h2 with
                | cons _ hs => exact List.sublist_of_cons_sublist hs
                | cons₂ _ hs => exact hs
            simp [lcsLen]
            omega
          · simp only [lcsLen, if_neg hab]
            cases h1 with
            | cons _ hs1 =>
              have := ih as (b :: bs) (c :: cs) (by simp at h ⊢; omega) hs1 h2
              omega
            | cons₂ _ hs1 =>
              cases h2 with
              | cons _ hs2 =>
                have := ih (a :: as) bs (a :: cs) (by simp at h ⊢; omega)
                  (hs1.cons₂ a) hs2
                omega
              | cons₂ _ hs2 => exact absurd rfl hab
  exact H (l1.length + l2.length) l1 l2 zs le_rfl h1 h2

/-- The source's score table, at in-range indices, is the textbook LCS
length of the two reversed prefixes (the recurrence peels prefixes from
the back, `lcsLen` from the front). -/
theorem computeLCSTable_eq_lcsLen (oldLines newLines : List String) :
    ∀ i j, i ≤ oldLines.length → j ≤ newLines.length →
      computeLCSTable oldLines newLines i j =
        lcsLen (oldLines.take i).reverse (newLines.take j).reverse := by
  have H : ∀ (nn i j : Nat), i + j ≤ nn → i ≤ oldLines.length →
      j ≤ newLines.length →
      computeLCSTable oldLines newLines i j =
        lcsLen (oldLines.take i).reverse (newLines.take j).reverse := by
    intro nn
    induction nn with
    | zero =>
      intro i j h hi hj
      have h1 : i = 0 := by omega
      have h2 : j = 0 := by omega
      subst h1; subst h2
      simp [computeLCSTable, lcsLen]
    | succ nn ih =>
      intro i j h hi hj
      match i, j with
      | 0, j => simp [computeLCSTable, lcsLen]
      | i + 1, 0 => simp [computeLCSTable, lcsLen_nil_right]
      | i + 1, j + 1 =>
        have hi' : i < oldLines.length := by omega
        have hj' : j < newLines.length := by omega
        have htake1 : (oldLines.take (i + 1)).reverse =
            oldLines[i] :: (oldLines.take i).reverse := by
          rw [List.take_succ, List.getElem?_eq_getElem hi']
          simp
        have htake2 : (newLines.take (j + 1)).reverse =
            newLines[j] :: (newLines.take j).reverse := by
          rw [List.take_succ, List.getElem?_eq_getElem hj']
          simp
        simp only [computeLCSTable]
        by_cases hab : oldLines[i] = newLines[j]
        · rw [if_pos (by
            rw [List.getElem?_eq_getElem hi', List.getElem?_eq_getElem hj',
              hab])]
          rw [htake1, htake2]
          simp only [lcsLen, if_pos hab]
          rw [ih i j (by omega) (by omega) (by omega)]
        · rw [if_neg (by
            rw [List.getElem?_eq_getElem hi', List.getElem?_eq_getElem hj']
            simp [hab])]
          rw [ih i (j + 1) (by omega) (by omega) (by omega),
            ih (i + 1) j (by omega) (by omega) (by omega), htake1, htake2]
          simp only [lcsLen, if_neg hab]
          exact Nat.max_comm _ _
  intro i j
  exact H (i + j) i j le_rfl

/-- C2: LCS score table correctness.  At every in-range index pair `(i, j)`
the table entry is the length of a longest common subsequence of the first
`i` old lines and the first `j` new lines: some common sublist of the two
prefixes attains it and none exceeds it.  The boundary row and column are
zero. -/
theorem computeLCSTable_correct (oldLines newLines : List String) (i j : Nat)
    (hi : i ≤ oldLines.length) (hj : j ≤ newLines.length) :
    (∃ zs : List String, zs.Sublist (oldLines.take i) ∧
      zs.Sublist (newLines.take j) ∧
      zs.length = computeLCSTable oldLines newLines i j) ∧
    (∀ zs : List String, zs.Sublist (oldLines.take i) →
      zs.Sublist (newLines.take j) →
      zs.length ≤ computeLCSTable oldLines newLines i j) ∧
    computeLCSTable oldLines newLines i 0 = 0 ∧
    computeLCSTable oldLines newLines 0 j = 0 := by
  have hB := computeLCSTable_eq_lcsLen oldLines newLines i j hi hj
  refine ⟨?_, ?_, ?_, ?_⟩
  · obtain ⟨zs, s1, s2, hl⟩ :=
      lcsLen_exists (oldLines.take i).reverse (newLines.take j).reverse
    refine ⟨zs.reverse, ?_, ?_, ?_⟩
    · exact List.reverse_sublist.1 (by simpa using s1)
    · exact List.reverse_sublist.1 (by simpa using s2)
    · rw [hB]
      simpa using hl
  · intro zs hs1 hs2
    have h1 := List.reverse_sublist.2 hs1
    have h2 := List.reverse_sublist.2 hs2
    have := lcsLen_le _ _ _ h1 h2
    rw [hB]
    simpa using this
  · cases i <;> simp [computeLCSTable]
  · cases j <;> simp [computeLCSTable]

/-- Witness for C2 at `old = ["a", "b"]`, `new = ["b"]`, `i = 2`, `j = 1`. -/
theorem computeLCSTable_correct_witness :
    (∃ zs : List String, zs.Sublist (["a", "b"].take 2) ∧
      zs.Sublist (["b"].take 1) ∧
      zs.length = computeLCSTable ["a", "b"] ["b"] 2 1) ∧
    (∀ zs : List String, zs.Sublist (["a", "b"].take 2) →
      zs.Sublist (["b"].take 1) →
      zs.length ≤ computeLCSTable ["a", "b"] ["b"] 2 1) ∧
    computeLCSTable ["a", "b"] ["b"] 2 0 = 0 ∧
    computeLCSTable ["a", "b"] ["b"] 0 1 = 0 :=
  computeLCSTable_correct ["a", "b"] ["b"] 2 1 (by decide) (by decide)

/-- C7: the side-by-side projection is a 1:1 row mapping.  Each op yields
exactly one aligned row, in script order — the two panes are precisely the
per-op cell maps, so the row count equals the script length and no
delete+insert coalescing happens. -/
theorem renderSideBySideDiff_one_to_one (diff : List DiffOp) :
    (renderSideBySideDiff diff).1 = diff.map leftCellOfOp ∧
    (renderSideBySideDiff diff).2 = diff.map rightCellOfOp ∧
    (renderSideBySideDiff diff).1.length = diff.length ∧
    (renderSideBySideDiff diff).2.length = diff.length := by
  have key : ∀ (d : List DiffOp) (acc : List PaneLine × List PaneLine),
      d.foldl
        (fun acc item =>
          match item.type with
          | .unchanged =>
            (acc.1 ++ [⟨.unchanged, item.content, item.oldLine⟩],
              acc.2 ++ [⟨.unchanged, item.content, item.newLine⟩])
          | .del =>
            (acc.1 ++ [⟨.del, item.content, item.oldLine⟩],
              acc.2 ++ [⟨.empty, "", none⟩])
          | .add =>
            (acc.1 ++ [⟨.empty, "", none⟩],
              acc.2 ++ [⟨.add, item.content, item.newLine⟩])) acc =
        (acc.1 ++ d.map leftCellOfOp, acc.2 ++ d.map rightCellOfOp) := by
    intro d
    induction d with
    | nil => intro acc; simp
    | cons op t ih =>
      intro acc
      rw [List.foldl_cons, ih]
      rcases hop : op.type <;>
        simp [leftCellOfOp, rightCellOfOp, hop]
  have h := key diff ([], [])
  unfold renderSideBySideDiff
  rw [h]
  simp

/-- Counterexample to C8 as stated: the multi-entry renderer does not
derive the per-entry counts from the computed script — it passes the
caller-supplied `additions`/`deletions` through.  For the entry
`{filename "f.md", status "modified", additions 5, deletions 7,
old "a", new "b"}` the rendered header shows `+5 / -7`, while the script
computed for `("a", "b")` has exactly 1 `add` and 1 `del` op. -/
theorem renderMultiFileDiff_passthrough_cex :
    renderMultiFileDiff [⟨"f.md", "modified", 5, 7, some "a", some "b"⟩] =
      [RenderNode.header "~" "f.md" 5 7,
        RenderNode.line ⟨"-", "1", "a"⟩,
        RenderNode.line ⟨"+", "1", "b"⟩] ∧
    countType .add (computeDiff (some "a") (some "b")) = 1 ∧
    countType .del (computeDiff (some "a") (some "b")) = 1 := by
  have hscript : computeDiff (some "a") (some "b") =
      [⟨.del, "a", some 1, none⟩, ⟨.add, "b", none, some 1⟩] := by
    simp [computeDiff, computeDiffLines, toLines, jsSplitNewline, splitNl,
      computeLCSTable, backtrackDiff]
  refine ⟨?_, ?_, ?_⟩
  · have : jsOrEmptyText (some "a") = some "a" ∧
        jsOrEmptyText (some "b") = some "b" := ⟨rfl, rfl⟩
    rw [renderMultiFileDiff, List.foldl_cons, List.foldl_nil, this.1, this.2,
      hscript]
    decide
  · rw [hscript]
    decide
  · rw [hscript]
    decide

/-- C8 amended: the aggregator runs the diff engine on each entry's two
texts (after `|| ''` normalisation) and renders, per entry, a header
carrying the caller-supplied counts followed by the computed script's
unified lines; `getDiffStats` is the function that derives counts by
counting `add`/`del`/`unchanged` ops of a script; an empty entry list
renders to an empty output. -/
theorem renderMultiFileDiff_amended :
    (∀ fileDiffs : List FileEntry,
      renderMultiFileDiff fileDiffs = fileDiffs.flatMap fun file =>
        RenderNode.header (statusIcon file.status) file.filename
            file.additions file.deletions ::
          (renderUnifiedDiff (computeDiff (jsOrEmptyText file.previousContent)
            (jsOrEmptyText file.currentContent))).map RenderNode.line) ∧
    (∀ diff : List DiffOp, getDiffStats diff =
      ⟨countType .add diff, countType .del diff, countType .unchanged diff⟩) ∧
    renderMultiFileDiff [] = [] := by
  have hrender : ∀ (fileDiffs : List FileEntry) (acc : List RenderNode),
      fileDiffs.foldl
        (fun acc file =>
          acc ++
            [RenderNode.header (statusIcon file.status) file.filename
              file.additions file.deletions] ++
            (renderUnifiedDiff
              (computeDiff (jsOrEmptyText file.previousContent)
                (jsOrEmptyText file.currentContent))).map RenderNode.line)
        acc =
      acc ++ (fileDiffs.flatMap fun file =>
        RenderNode.header (statusIcon file.status) file.filename
            file.additions file.deletions ::
          (renderUnifiedDiff (computeDiff (jsOrEmptyText file.previousContent)
            (jsOrEmptyText file.currentContent))).map RenderNode.line) := by
    intro fileDiffs
    induction fileDiffs with
    | nil => intro acc; simp
    | cons f t ih =>
      intro acc
      rw [List.foldl_cons, ih]
      simp
  have hstats : ∀ (diff : List DiffOp) (s : DiffStats),
      diff.foldl
        (fun s item =>
          match item.type with
          | .add => { s with additions := s.additions + 1 }
          | .del => { s with deletions := s.deletions + 1 }
          | .unchanged => { s with unchanged := s.unchanged + 1 }) s =
      ⟨s.additions + countType .add diff, s.deletions + countType .del diff,
        s.unchanged + countType .unchanged diff⟩ := by
    intro diff
    induction diff with
    | nil => intro s; simp [countType]
    | cons op t ih =>
      intro s
      rw [List.foldl_cons, ih]
      rcases hop : op.type <;>
        simp [countType, List.countP_cons, hop] <;> omega
  refine ⟨?_, ?_, by rw [renderMultiFileDiff, List.foldl_nil]⟩
  · intro fileDiffs
    rw [renderMultiFileDiff, hrender fileDiffs []]
    simp
  · intro diff
    rw [getDiffStats, hstats diff ⟨0, 0, 0⟩]
    simp

/-- Counterexample to C9 as stated: with eleven single-file commits the
view renders exactly the ten banner rows of the first ten commits and
nothing after them — no trailing notice row summarising the omitted entry
is appended (the claim requires an eleventh, notice row). -/
theorem renderBeforeAfterView_no_notice_cex :
    renderBeforeAfterView (List.replicate 11 ⟨[⟨"f", []⟩]⟩) =
      (List.replicate 10 ⟨"unchanged", "=== f ==="⟩,
        List.replicate 10 ⟨"unchanged", "=== f ==="⟩) := by
  decide

/-- C9 amended: the view renders exactly the first (at most) ten commits,
in caller order — each contributing its files' banner and paired rows in
order — and commits beyond the tenth are silently dropped: nothing is
appended after the capped entries' rows. -/
theorem renderBeforeAfterView_cap (commits : List CommitDetail) :
    renderBeforeAfterView commits =
      ((commits.take 10).flatMap fun d => d.files.flatMap fileRowsL,
        (commits.take 10).flatMap fun d => d.files.flatMap fileRowsR) := by
  have hline : ∀ (lines : List AppLine) (acc : List AppLine × List AppLine),
      lines.foldl
        (fun acc3 line =>
          if line.type = "del" then
            (acc3.1 ++ [line], acc3.2 ++ [⟨"empty", ""⟩])
          else if line.type = "add" then
            (acc3.1 ++ [⟨"empty", ""⟩], acc3.2 ++ [line])
          else (acc3.1 ++ [line], acc3.2 ++ [line])) acc =
      (acc.1 ++ lines.map leftRowOfLine, acc.2 ++ lines.map rightRowOfLine) := by
    intro lines
    induction lines with
    | nil => intro acc; simp
    | cons l t ih =>
      intro acc
      rw [List.foldl_cons, ih]
      by_cases hd : l.type = "del"
      · have hd2 : ¬l.type = "add" := by simp [hd]
        simp [hd, hd2, leftRowOfLine, rightRowOfLine]
      · by_cases ha : l.type = "add"
        · simp [hd, ha, leftRowOfLine, rightRowOfLine]
        · simp [hd, ha, leftRowOfLine, rightRowOfLine]
  have hfile : ∀ (files : List CommitFile) (acc : List AppLine × List AppLine),
      files.foldl
        (fun acc2 file =>
          file.diff.foldl
            (fun acc3 line =>
              if line.type = "del" then
                (acc3.1 ++ [line], acc3.2 ++ [⟨"empty", ""⟩])
              else if line.type = "add" then
                (acc3.1 ++ [⟨"empty", ""⟩], acc3.2 ++ [line])
              else (acc3.1 ++ [line], acc3.2 ++ [line]))
            (acc2.1 ++ [⟨"unchanged", "=== " ++ file.filename ++ " ==="⟩],
              acc2.2 ++ [⟨"unchanged", "=== " ++ file.filename ++ " ==="⟩]))
        acc =
      (acc.1 ++ files.flatMap fileRowsL, acc.2 ++ files.flatMap fileRowsR) := by
    intro files
    induction files with
    | nil => intro acc; simp
    | cons f t ih =>
      intro acc
      rw [List.foldl_cons, hline, ih]
      simp [fileRowsL, fileRowsR]
  have hcommit : ∀ (cs : List CommitDetail) (acc : List AppLine × List AppLine),
      cs.foldl
        (fun acc detail =>
          detail.files.foldl
            (fun acc2 file =>
              file.diff.foldl
                (fun acc3 line =>
                  if line.type = "del" then
                    (acc3.1 ++ [line], acc3.2 ++ [⟨"empty", ""⟩])
                  else if line.type = "add" then
                    (acc3.1 ++ [⟨"empty", ""⟩], acc3.2 ++ [line])
                  else (acc3.1 ++ [line], acc3.2 ++ [line]))
                (acc2.1 ++ [⟨"unchanged", "=== " ++ file.filename ++ " ==="⟩],
                  acc2.2 ++ [⟨"unchanged", "=== " ++ file.filename ++ " ==="⟩]))
            acc) acc =
      (acc.1 ++ cs.flatMap fun d => d.files.flatMap fileRowsL,
        acc.2 ++ cs.flatMap fun d => d.files.flatMap fileRowsR) := by
    intro cs
    induction cs with
    | nil => intro acc; simp
    | cons c t ih =>
      intro acc
      rw [List.foldl_cons, hfile, ih]
      simp
  rw [renderBeforeAfterView, hcommit]
  simp

end EvolutionDuDroit
